import Mathlib

/-!
Verification development for the PPICommunityOptimizer repository.

The embedding models the core modules over exact rational arithmetic:

* `src/permanence.py` : `calculate_permanence`, `calculate_permanence_all_proteins`
* `src/membership_overlap.py` : `calculate_functional_dependency`,
  `calculate_membership`, `calculate_intra_extra_links`, `find_emax_cluster`,
  `apply_overlap_reassignment`
* `src/lea/fitness_membership.py` : `MembershipFitness.compute_fitness`
* `src/lea/lotus_effect_algorithm.py` : `LotusEffectAlgorithm`

Python dictionaries become association lists (insertion ordered), Python sets
of protein ids become duplicate-free lists with a membership-checked `setAdd`,
floats become rationals.  The transcendental `tanh` used to normalise the
functional-dependency score is an explicit function parameter, and the TF-IDF
table is an arbitrary score function `Int → String → ℚ`, so every theorem
quantifies over them.  Randomness of the optimizer is supplied by explicit
oracle streams.  Python exceptions are modelled with `Except String`.
-/

set_option linter.unusedVariables false
set_option maxRecDepth 4096

section RatReducibility

attribute [local semireducible] Rat.add Rat.mul Rat.sub Rat.inv

abbrev Clusters := List (Int × List String)

abbrev GOMap := List (String × List String)

abbrev PermTable := List (String × List (Int × ℚ))

/-- Association-list lookup, mirroring a Python dict lookup (first match). -/
def assocFind {α β : Type} [DecidableEq α] : List (α × β) → α → Option β
  | [], _ => none
  | (k, v) :: rest, a => if k = a then some v else assocFind rest a

/-- Graph capability surface used by the core: node list, adjacency test and
the total edge count (`graph.number_of_edges()`). -/
structure Graph where
  nodes : List String
  adj : String → String → Bool
  edgeCount : Nat

/-- Neighbor list of a protein, `set(graph.neighbors(p))` in iteration order
of the node list.  A node absent from the graph has no neighbors here; call
sites in `permanence.py` and `membership_overlap.py` guard membership first. -/
def Graph.neighbors (g : Graph) (p : String) : List String :=
  g.nodes.filter (fun q => g.adj p q)

/-- Python set add: `s.add(p)` keeps the set unchanged when `p` is present. -/
def setAdd (l : List String) (p : String) : List String :=
  if p ∈ l then l else l ++ [p]

/-- Lookup of a cluster by id with the empty-set default (cluster ids passed
around by the engine always exist as keys, so the default is never hit on the
Python side). -/
def clusterOf (cs : Clusters) (cid : Int) : List String :=
  match assocFind cs cid with
  | some l => l
  | none => []

/-- Content equality of two protein sets, the Python `==` on sets used by the
skip test in the E_max loop of `calculate_permanence`. -/
def listSetEq (a b : List String) : Bool :=
  a.all (fun x => x ∈ b) && b.all (fun x => x ∈ a)

/-- Number of adjacent pairs among a list of proteins: the double loop
`for i, n1 in enumerate(internal_list): for n2 in internal_list[i+1:]`
counting `graph.has_edge(n1, n2)`. -/
def countAdjPairs (g : Graph) : List String → Nat
  | [] => 0
  | x :: xs => (xs.filter (fun y => g.adj x y)).length + countAdjPairs g xs

/-- Embedding of `calculate_permanence` from `src/permanence.py`. -/
def calculate_permanence (protein : String) (cluster : List String)
    (g : Graph) (all_clusters : Option Clusters) : ℚ :=
  if protein ∈ g.nodes then
    let neighbors := Graph.neighbors g protein
    if neighbors = [] then 0
    else
      let internal_neighbors := neighbors.filter (fun q => q ∈ cluster)
      let I_p : Nat := internal_neighbors.length
      let external_neighbors := neighbors.filter (fun q => q ∉ cluster)
      if external_neighbors = [] then
        if 0 < I_p then 1 else 0
      else
        let E_max_p : Nat :=
          match all_clusters with
          | some cs =>
            cs.foldl (fun acc c =>
              if listSetEq c.2 cluster then acc
              else
                let connections := (neighbors.filter (fun q => q ∈ c.2)).length
                if connections > acc then connections else acc) 0
          | none => external_neighbors.length
        let C_in_p : ℚ :=
          if I_p < 2 then 0
          else (countAdjPairs g internal_neighbors : ℚ) /
            ((I_p : ℚ) * ((I_p : ℚ) - 1) / 2)
        let permanence : ℚ :=
          if E_max_p = 0 then
            (I_p : ℚ) / ((max 1 neighbors.length : Nat) : ℚ) - (1 - C_in_p)
          else
            (I_p : ℚ) / (E_max_p : ℚ) - (1 - C_in_p)
        max (-1) (min 1 permanence)
  else 0

/-- First-seen-order list of all proteins of the partition, the Python
`all_proteins` set accumulated over `clusters.values()`. -/
def allProteins (clusters : Clusters) : List String :=
  clusters.foldl (fun acc c => acc ++ c.2.filter (fun p => p ∉ acc)) []

/-- Embedding of `calculate_permanence_all_proteins` from `src/permanence.py`:
the table holds one inner entry per cluster the protein belongs to in the
given partition. -/
def calculate_permanence_all_proteins (clusters : Clusters) (g : Graph) :
    PermTable :=
  (allProteins clusters).map (fun protein =>
    (protein,
      (clusters.filter (fun c => protein ∈ c.2)).map (fun c =>
        (c.1, calculate_permanence protein (clusterOf clusters c.1) g
          (some clusters)))))

/-- Table lookup `permanence_scores.get(protein, {}).get(cluster_id, 0.0)`. -/
def permLookup (t : PermTable) (protein : String) (cluster_id : Int) : ℚ :=
  match assocFind t protein with
  | none => 0
  | some m =>
    match assocFind m cluster_id with
    | none => 0
    | some v => v

/-- Embedding of `calculate_functional_dependency` from
`src/membership_overlap.py`; `tanh` and the TF-IDF score table are explicit
function parameters. -/
def calculate_functional_dependency (tanh : ℚ → ℚ) (protein : String)
    (cluster : List String) (protein_go_terms : GOMap)
    (get_tfidf : Int → String → ℚ) (cluster_id : Int) (normalize : Bool) : ℚ :=
  match assocFind protein_go_terms protein with
  | none => 0
  | some protein_terms =>
    if protein_terms = [] then 0
    else
      let fd_score := (protein_terms.map (fun t => get_tfidf cluster_id t)).sum
      let fd_score :=
        if 0 < protein_terms.length then fd_score / (protein_terms.length : ℚ)
        else fd_score
      if normalize then max (-1) (min 1 (tanh fd_score)) else fd_score

/-- Embedding of `calculate_membership` from `src/membership_overlap.py`. -/
def calculate_membership (tanh : ℚ → ℚ) (protein : String)
    (cluster : List String) (cluster_id : Int) (g : Graph)
    (protein_go_terms : GOMap) (get_tfidf : Int → String → ℚ)
    (permanence_scores : PermTable) (alpha : ℚ) : ℚ :=
  let alpha := max 0 (min 1 alpha)
  let perm_norm := permLookup permanence_scores protein cluster_id
  let fd_norm := calculate_functional_dependency tanh protein cluster
    protein_go_terms get_tfidf cluster_id true
  let membership := alpha * perm_norm + (1 - alpha) * fd_norm
  max (-1) (min 1 membership)

/-- Embedding of `calculate_intra_extra_links` from
`src/membership_overlap.py`. -/
def calculate_intra_extra_links (protein : String) (cluster : List String)
    (g : Graph) : Nat × Nat :=
  if protein ∈ g.nodes then
    let neighbors := Graph.neighbors g protein
    ((neighbors.filter (fun q => q ∈ cluster)).length,
     (neighbors.filter (fun q => q ∉ cluster)).length)
  else (0, 0)

/-- Embedding of `find_emax_cluster` from `src/membership_overlap.py`;
`-1` is the sentinel the Python code returns when no cluster qualifies. -/
def find_emax_cluster (protein : String) (clusters : Clusters) (g : Graph) :
    Int :=
  if protein ∈ g.nodes then
    let neighbors := Graph.neighbors g protein
    (clusters.foldl (fun (acc : Nat × Int) c =>
      if protein ∈ c.2 then acc
      else
        let connections := (neighbors.filter (fun q => q ∈ c.2)).length
        if connections > acc.1 then (connections, c.1) else acc)
      (0, -1)).2
  else -1

/-- One iteration of the transfer loop body of `apply_overlap_reassignment`
for a fixed protein and one of its current cluster ids. -/
def transferInner (g : Graph) (protein : String) (upd : Clusters)
    (cid : Int) : Clusters :=
  let cluster := clusterOf upd cid
  let il := calculate_intra_extra_links protein cluster g
  if il.2 > il.1 then
    let emax_cid := find_emax_cluster protein upd g
    if emax_cid ≠ -1 ∧ emax_cid ≠ cid then
      let emax_cluster := clusterOf upd emax_cid
      let el := calculate_intra_extra_links protein emax_cluster g
      if el.1 > il.1 then
        (upd.map (fun c => if c.1 = cid then (c.1, c.2.filter (fun q => q ≠ protein)) else c)).map
          (fun c => if c.1 = emax_cid then (c.1, setAdd c.2 protein) else c)
      else upd
    else upd
  else upd

/-- Python `max(current_memberships.values()) if current_memberships else
0.0` (the empty default is dead code in the source, guarded earlier). -/
def pyMaxOrZero : List ℚ → ℚ
  | [] => 0
  | x :: xs => xs.foldl max x

/-- The per-protein body of the loop of `apply_overlap_reassignment`:
current clusters and memberships are computed once, then the overlap loop
over all other clusters runs, then the transfer loop over the clusters the
protein was in at the start of its turn. -/
def engineStep (tanh : ℚ → ℚ) (g : Graph) (protein_go_terms : GOMap)
    (get_tfidf : Int → String → ℚ) (permanence_scores : PermTable)
    (alpha overlap_tau : ℚ) (upd : Clusters) (protein : String) : Clusters :=
  let current_clusters := (upd.filter (fun c => protein ∈ c.2)).map Prod.fst
  if current_clusters = [] then upd
  else
    let current_memberships := current_clusters.map (fun cid =>
      calculate_membership tanh protein (clusterOf upd cid) cid g
        protein_go_terms get_tfidf permanence_scores alpha)
    let max_current : ℚ := pyMaxOrZero current_memberships
    let upd1 := upd.map (fun c =>
      if c.1 ∈ current_clusters then c
      else
        let test_cluster := setAdd c.2 protein
        let memb_if_added := calculate_membership tanh protein test_cluster
          c.1 g protein_go_terms get_tfidf permanence_scores alpha
        if memb_if_added - max_current > overlap_tau then (c.1, setAdd c.2 protein)
        else c)
    current_clusters.foldl (transferInner g protein) upd1

/-- Embedding of `apply_overlap_reassignment` from
`src/membership_overlap.py`.  The `transfer_tau` parameter is accepted and,
exactly as in the source, never used. -/
def apply_overlap_reassignment (tanh : ℚ → ℚ) (clusters : Clusters)
    (g : Graph) (protein_go_terms : GOMap) (get_tfidf : Int → String → ℚ)
    (permanence_scores : PermTable)
    (alpha overlap_tau transfer_tau : ℚ) : Clusters :=
  let updated_clusters := clusters
  let all_proteins := allProteins clusters
  all_proteins.foldl
    (engineStep tanh g protein_go_terms get_tfidf permanence_scores alpha
      overlap_tau)
    updated_clusters

/-- Cluster ids currently containing a protein, in partition order: the list
comprehension `[cid for cid, cluster in updated_clusters.items() if protein
in cluster]`. -/
def currentClustersOf (upd : Clusters) (protein : String) : List Int :=
  (upd.filter (fun c => protein ∈ c.2)).map Prod.fst

/-- The overlap portion of the per-protein loop body of
`apply_overlap_reassignment`, as a standalone step; each cluster not
currently containing the protein receives it when the membership gain
exceeds `overlap_tau`. -/
def overlapPartStep (tanh : ℚ → ℚ) (g : Graph) (protein_go_terms : GOMap)
    (get_tfidf : Int → String → ℚ) (permanence_scores : PermTable)
    (alpha overlap_tau : ℚ) (upd : Clusters) (protein : String) : Clusters :=
  let current_clusters := currentClustersOf upd protein
  if current_clusters = [] then upd
  else
    let current_memberships := current_clusters.map (fun cid =>
      calculate_membership tanh protein (clusterOf upd cid) cid g
        protein_go_terms get_tfidf permanence_scores alpha)
    let max_current : ℚ := pyMaxOrZero current_memberships
    upd.map (fun c =>
      if c.1 ∈ current_clusters then c
      else
        let test_cluster := setAdd c.2 protein
        let memb_if_added := calculate_membership tanh protein test_cluster
          c.1 g protein_go_terms get_tfidf permanence_scores alpha
        if memb_if_added - max_current > overlap_tau then (c.1, setAdd c.2 protein)
        else c)

/-- Per-protein step that only runs the transfer loop (no overlap loop),
over the clusters currently containing the protein. -/
def transferOnlyStep (g : Graph) (upd : Clusters) (protein : String) :
    Clusters :=
  let current_clusters := currentClustersOf upd protein
  if current_clusters = [] then upd
  else current_clusters.foldl (transferInner g protein) upd

/-- Engine variant running only transfer decisions, used to characterise
the engine at unreachable overlap thresholds. -/
def transferOnlyEngine (clusters : Clusters) (g : Graph) : Clusters :=
  (allProteins clusters).foldl (transferOnlyStep g) clusters

/-- Modelled from the spec: the two-pass reference procedure of section 4.4,
one complete overlap pass over all proteins of the initial partition,
followed by one complete transfer pass in which each protein is examined for
every original cluster it started in. -/
def twoPassReference (tanh : ℚ → ℚ) (clusters : Clusters) (g : Graph)
    (protein_go_terms : GOMap) (get_tfidf : Int → String → ℚ)
    (permanence_scores : PermTable)
    (alpha overlap_tau transfer_tau : ℚ) : Clusters :=
  let ps := allProteins clusters
  let afterOverlap := ps.foldl
    (overlapPartStep tanh g protein_go_terms get_tfidf permanence_scores
      alpha overlap_tau) clusters
  ps.foldl (fun upd p =>
    (currentClustersOf clusters p).foldl (transferInner g p) upd) afterOverlap

/-- Modelled from the spec: the closed-form permanence formula asserted in
the claim, `clip(raw, -1, 1)` with `raw = I/E_max - (1 - C_in)` when
`E_max > 0` and `raw = I/|N| - (1 - C_in)` otherwise, `E_max` ranging over
the other clusters of the partition. -/
def spec_permanence_formula (protein : String) (cluster : List String)
    (g : Graph) (cs : Clusters) : ℚ :=
  let N := Graph.neighbors g protein
  let internal := N.filter (fun q => q ∈ cluster)
  let I : Nat := internal.length
  let Emax : Nat :=
    (cs.filter (fun c => !listSetEq c.2 cluster)).foldl
      (fun a c => max a ((N.filter (fun q => q ∈ c.2)).length)) 0
  let Cin : ℚ :=
    if I < 2 then 0
    else (countAdjPairs g internal : ℚ) / ((I : ℚ) * ((I : ℚ) - 1) / 2)
  let raw : ℚ :=
    if 0 < Emax then (I : ℚ) / (Emax : ℚ) - (1 - Cin)
    else (I : ℚ) / (N.length : ℚ) - (1 - Cin)
  max (-1) (min 1 raw)

def G4 : Graph :=
  { nodes := ["p1", "a", "p2", "x", "y"],
    adj := fun u v =>
      (u = "p1" && (v = "p2" || v = "x")) || (v = "p1" && (u = "p2" || u = "x")) ||
      (u = "x" && v = "y") || (u = "y" && v = "x"),
    edgeCount := 3 }

def CS4 : Clusters := [(0, ["p1", "a"]), (1, ["p2"]), (2, ["x", "y"])]

def PT4 : PermTable := [("p2", [(0, 1)])]

def G2 : Graph :=
  { nodes := ["a", "p", "b", "x"],
    adj := fun u v =>
      (u = "a" && v = "p") || (u = "p" && v = "a") ||
      (u = "p" && v = "b") || (u = "b" && v = "p"),
    edgeCount := 2 }

def CS2 : Clusters := [(0, ["a", "p", "b"]), (1, ["x"])]

deriving instance DecidableEq for Except

/-- Accumulator of the per-cluster metric loop of
`MembershipFitness.compute_fitness`. -/
structure FitAcc where
  membership_sum : ℚ
  intra_cohesion : ℚ
  inter_coupling : ℚ
  go_coherence_sum : ℚ
deriving DecidableEq

/-- The `for protein in cluster` loop summing `len(neighbors - cluster)`.
`nx.Graph.neighbors` raises `NetworkXError` on a node absent from the graph,
modelled as `Except.error`; this loop in `compute_fitness` is the only
neighbor access of the core not guarded by a graph-membership test. -/
def interEdgesForCluster (g : Graph) (cluster : List String) :
    Except String Nat :=
  cluster.foldlM (fun acc p =>
    if p ∈ g.nodes then
      Except.ok (acc + ((Graph.neighbors g p).filter (fun q => q ∉ cluster)).length)
    else Except.error "NetworkXError: node not in graph") 0

/-- The body of the per-cluster metric loop of
`MembershipFitness.compute_fitness`: empty clusters are skipped, others
contribute size-weighted membership, cohesion, inter-coupling and
functional-dependency mass. -/
def scoreClusterStep (tanh : ℚ → ℚ) (g : Graph) (protein_go_terms : GOMap)
    (get_tfidf : Int → String → ℚ) (permanence_scores : PermTable)
    (alpha : ℚ) (acc : FitAcc) (c : Int × List String) :
    Except String FitAcc := do
  let cluster := c.2
  if cluster.length = 0 then pure acc
  else
    let cluster_size : ℚ := cluster.length
    let intra_edges := countAdjPairs g cluster
    let cluster_membership_sum :=
      (cluster.map (fun p => calculate_membership tanh p cluster c.1 g
        protein_go_terms get_tfidf permanence_scores alpha)).sum
    let avg_membership := cluster_membership_sum / cluster_size
    let acc := { acc with
      membership_sum := acc.membership_sum + avg_membership * cluster_size }
    let max_possible_edges : ℚ := cluster_size * (cluster_size - 1) / 2
    let acc :=
      if max_possible_edges > 0 then
        { acc with intra_cohesion := acc.intra_cohesion +
            ((intra_edges : ℚ) / max_possible_edges) * cluster_size }
      else acc
    let inter_edges ← interEdgesForCluster g cluster
    let acc := { acc with
      inter_coupling := acc.inter_coupling + (inter_edges : ℚ) }
    let cluster_fd_sum :=
      (cluster.map (fun p => calculate_functional_dependency tanh p cluster
        protein_go_terms get_tfidf c.1 true)).sum
    let avg_fd := cluster_fd_sum / cluster_size
    pure { acc with
      go_coherence_sum := acc.go_coherence_sum + avg_fd * cluster_size }

/-- The metric computation of `MembershipFitness.compute_fitness` applied to
the reassigned clusters (everything after the try/except block). -/
def scoreClusters (tanh : ℚ → ℚ) (g : Graph) (protein_go_terms : GOMap)
    (get_tfidf : Int → String → ℚ) (permanence_scores : PermTable)
    (alpha lambda_inter lambda_fragment : ℚ)
    (optimized_clusters : Clusters) : Except String ℚ := do
  let acc ← optimized_clusters.foldlM
    (scoreClusterStep tanh g protein_go_terms get_tfidf permanence_scores
      alpha)
    ⟨0, 0, 0, 0⟩
  let total_proteins : Nat := (optimized_clusters.map (fun c => c.2.length)).sum
  if total_proteins = 0 then pure (-1000000)
  else
    let tp : ℚ := total_proteins
    let avg_membership := acc.membership_sum / tp
    let avg_intra_cohesion := acc.intra_cohesion / tp
    let avg_go_coherence := acc.go_coherence_sum / tp
    let normalized_inter_coupling : ℚ :=
      if 0 < g.edgeCount then acc.inter_coupling / (g.edgeCount : ℚ) else 0
    let num_clusters := (optimized_clusters.filter (fun c => 0 < c.2.length)).length
    let num_singletons := (optimized_clusters.filter (fun c => c.2.length = 1)).length
    let fragmentation : ℚ :=
      if 0 < num_clusters then (num_singletons : ℚ) / (num_clusters : ℚ) else 1
    pure (avg_membership + avg_intra_cohesion + avg_go_coherence -
      lambda_inter * normalized_inter_coupling -
      lambda_fragment * fragmentation)

/-- The body of `MembershipFitness.compute_fitness` after parameter
extraction, taking the outcome of the reassignment call: the except branch
of the try block turns any reassignment failure into the fixed `-1e6`
penalty; a successful reassignment is scored. -/
def compute_fitness_from (tanh : ℚ → ℚ) (g : Graph)
    (protein_go_terms : GOMap) (get_tfidf : Int → String → ℚ)
    (permanence_scores : PermTable)
    (alpha lambda_inter lambda_fragment : ℚ)
    (reassigned : Except String Clusters) : Except String ℚ :=
  match reassigned with
  | Except.error _ => Except.ok (-1000000)
  | Except.ok optimized_clusters =>
    scoreClusters tanh g protein_go_terms get_tfidf permanence_scores alpha
      lambda_inter lambda_fragment optimized_clusters

/-- Embedding of `MembershipFitness.compute_fitness` from
`src/lea/fitness_membership.py`; the solution vector is the triple
`(alpha, overlap_tau, transfer_tau)` and each component is clipped with
`np.clip(x, 0, 1)` before use. -/
def compute_fitness (tanh : ℚ → ℚ) (g : Graph) (initial_clusters : Clusters)
    (protein_go_terms : GOMap) (get_tfidf : Int → String → ℚ)
    (permanence_scores : PermTable) (solution : ℚ × ℚ × ℚ)
    (lambda_inter lambda_fragment : ℚ) : Except String ℚ :=
  let alpha := min 1 (max solution.1 0)
  let overlap_tau := min 1 (max solution.2.1 0)
  let transfer_tau := min 1 (max solution.2.2 0)
  compute_fitness_from tanh g protein_go_terms get_tfidf permanence_scores
    alpha lambda_inter lambda_fragment
    (Except.ok (apply_overlap_reassignment tanh initial_clusters g
      protein_go_terms get_tfidf permanence_scores alpha overlap_tau
      transfer_tau))

def G6 : Graph := { nodes := [], adj := fun _ _ => false, edgeCount := 0 }

/-- State of `LotusEffectAlgorithm` from `src/lea/lotus_effect_algorithm.py`.
`best_fitness = none` models the initial float infinity; every finite
fitness value compares below it. -/
structure LEAState where
  population : List (List ℚ)
  best_solution : List ℚ
  best_fitness : Option ℚ
  evals : Nat
  memory : List (List ℚ)
  history : List (Option ℚ)
deriving DecidableEq

/-- Static configuration of a run: the stored evaluation budget and bounds.
The step coefficient `self.alpha` is always `0.5` and the Levy parameter
`self.beta` only feeds the abstracted Levy oracle. -/
structure LEAParams where
  maxEvals : Int
  lower_bound : List ℚ
  upper_bound : List ℚ

/-- Comparison `fitness < self.best_fitness` where the right side may be the
initial infinity. -/
def ltInf (q : ℚ) : Option ℚ → Bool
  | none => true
  | some b => decide (q < b)

/-- Componentwise `np.clip(v, lower, upper)`,
`minimum(maximum(v, lower), upper)`. -/
def npClipVec (v lb ub : List ℚ) : List ℚ :=
  List.zipWith min (List.zipWith max v lb) ub

/-- Embedding of `LotusEffectAlgorithm.__init__`.  The population is sampled
by the oracle `rand` (each `rand i j` standing for a uniform draw in
`[0, 1)`).  A negative population size makes `np.random.uniform` raise
`ValueError`; a zero population size makes `self.population[0]` raise
`IndexError`.  No other configuration checking happens in the source. -/
def leaInit (population_size : Int) (dimensions : Nat) (lb ub : List ℚ)
    (rand : Nat → Nat → ℚ) : Except String LEAState :=
  if population_size < 0 then
    Except.error "ValueError: negative dimensions are not allowed"
  else
    let population := (List.range population_size.toNat).map (fun i =>
      (List.range dimensions).map (fun j =>
        lb.getD j 0 + (ub.getD j 0 - lb.getD j 0) * rand i j))
    match population with
    | [] => Except.error "IndexError: index 0 is out of bounds"
    | p0 :: _ =>
      Except.ok
        { population := population, best_solution := p0,
          best_fitness := none, evals := 0, memory := [], history := [] }

/-- The loop body of `update_positions`: individual `i` moves by
`0.5 * (best - pos) + levy_step` and is clipped to the bounds, consuming one
unit of the shared budget; the loop stops early once the budget is spent.
The Levy oracle is indexed by the current counter value, which increases by
one at each draw, so successive draws are distinct stream elements. -/
def updatePositionsAux (P : LEAParams) (levy : Nat → List ℚ) :
    Nat → Nat → LEAState → LEAState
  | 0, _, st => st
  | n + 1, i, st =>
    if (st.evals : Int) ≥ P.maxEvals then st
    else
      match st.population.get? i with
      | none => st
      | some pos =>
        let step := List.zipWith (fun b x => (1/2 : ℚ) * (b - x))
          st.best_solution pos
        let stepWithLevy := List.zipWith (· + ·) step (levy st.evals)
        let moved := List.zipWith (· + ·) pos stepWithLevy
        let clipped := npClipVec moved P.lower_bound P.upper_bound
        updatePositionsAux P levy n (i + 1)
          { st with population := st.population.set i clipped,
                    evals := st.evals + 1 }

/-- Embedding of `LotusEffectAlgorithm.update_positions`. -/
def update_positions (P : LEAParams) (levy : Nat → List ℚ)
    (st : LEAState) : LEAState :=
  updatePositionsAux P levy st.population.length 0 st

/-- The loop body of `evaluate_fitness`: each remaining individual costs one
budget unit and may improve the best solution; an exhausted budget returns
from the method immediately (skipping the trailing history append), while a
completed loop appends the best fitness to the history. -/
def evaluateFitnessAux (P : LEAParams) (f : List ℚ → ℚ) :
    Nat → Nat → LEAState → LEAState
  | 0, _, st => { st with history := st.history ++ [st.best_fitness] }
  | n + 1, i, st =>
    if (st.evals : Int) ≥ P.maxEvals then st
    else
      match st.population.get? i with
      | none => st
      | some pos =>
        let fitness := f pos
        let st1 := { st with evals := st.evals + 1 }
        let st2 :=
          if ltInf fitness st1.best_fitness then
            { st1 with best_fitness := some fitness, best_solution := pos,
                       memory := st1.memory ++ [pos] }
          else st1
        evaluateFitnessAux P f n (i + 1) st2

/-- Embedding of `LotusEffectAlgorithm.evaluate_fitness`. -/
def evaluate_fitness (P : LEAParams) (f : List ℚ → ℚ) (st : LEAState) :
    LEAState :=
  evaluateFitnessAux P f st.population.length 0 st

/-- The `while self.function_evaluations < self.max_function_evaluations`
loop of `optimize`, with explicit fuel; `none` models divergence (the loop
never terminates when no iteration makes progress, which happens exactly for
an empty population with budget remaining). -/
def optimizeLoop (P : LEAParams) (levy : Nat → List ℚ) (f : List ℚ → ℚ) :
    Nat → LEAState → Option LEAState
  | 0, st => if (st.evals : Int) < P.maxEvals then none else some st
  | fuel + 1, st =>
    if (st.evals : Int) < P.maxEvals then
      optimizeLoop P levy f fuel (evaluate_fitness P f (update_positions P levy st))
    else some st

/-- Embedding of `LotusEffectAlgorithm.optimize`.  Each loop iteration with a
nonempty population raises the counter by at least one, so the chosen fuel is
sufficient and the result is `some` final state whenever the Python loop
terminates. -/
def optimize (P : LEAParams) (levy : Nat → List ℚ) (f : List ℚ → ℚ)
    (st : LEAState) : Option LEAState :=
  optimizeLoop P levy f (P.maxEvals - (st.evals : Int)).toNat st

lemma foldl_congr_fun {α β : Type} (f h : β → α → β)
    (hfh : ∀ b a, f b a = h b a) :
    ∀ (l : List α) (init : β), l.foldl f init = l.foldl h init := by
  intro l
  induction l with
  | nil => intro init; rfl
  | cons a as ih =>
    intro init
    simp only [List.foldl_cons, hfh]
    exact ih _

lemma map_id_of_forall {α : Type} (f : α → α) :
    ∀ l : List α, (∀ x ∈ l, f x = x) → l.map f = l := by
  intro l
  induction l with
  | nil => intro _; rfl
  | cons a as ih =>
    intro h
    simp only [List.map_cons]
    rw [h a (by simp), ih (fun x hx => h x (by simp [hx]))]

lemma le_foldl_max (l : List ℚ) : ∀ a : ℚ, a ≤ l.foldl max a := by
  induction l with
  | nil => intro a; exact le_refl a
  | cons b bs ih => intro a; exact le_trans (le_max_left a b) (ih (max a b))

lemma neg_one_le_calculate_membership (tanh : ℚ → ℚ) (protein : String)
    (cluster : List String) (cluster_id : Int) (g : Graph)
    (protein_go_terms : GOMap) (get_tfidf : Int → String → ℚ)
    (permanence_scores : PermTable) (alpha : ℚ) :
    -1 ≤ calculate_membership tanh protein cluster cluster_id g
      protein_go_terms get_tfidf permanence_scores alpha := by
  unfold calculate_membership
  exact le_max_left _ _

lemma calculate_membership_le_one (tanh : ℚ → ℚ) (protein : String)
    (cluster : List String) (cluster_id : Int) (g : Graph)
    (protein_go_terms : GOMap) (get_tfidf : Int → String → ℚ)
    (permanence_scores : PermTable) (alpha : ℚ) :
    calculate_membership tanh protein cluster cluster_id g
      protein_go_terms get_tfidf permanence_scores alpha ≤ 1 := by
  unfold calculate_membership
  exact max_le (by norm_num) (min_le_left _ _)

lemma neg_one_le_pyMaxOrZero (l : List ℚ) (h : ∀ y ∈ l, -1 ≤ y) :
    -1 ≤ pyMaxOrZero l := by
  cases l with
  | nil => norm_num [pyMaxOrZero]
  | cons x xs =>
    exact le_trans (h x (by simp)) (le_foldl_max xs x)

/-- Any engine step with an overlap threshold of at least `2` performs no
overlap addition, because memberships are clipped to `[-1, 1]` and hence no
gain can exceed `2`. -/
lemma engineStep_eq_transferOnly (tanh : ℚ → ℚ) (g : Graph)
    (protein_go_terms : GOMap) (get_tfidf : Int → String → ℚ)
    (permanence_scores : PermTable) (alpha overlap_tau : ℚ)
    (h2 : 2 ≤ overlap_tau) (upd : Clusters) (protein : String) :
    engineStep tanh g protein_go_terms get_tfidf permanence_scores alpha
      overlap_tau upd protein
    = transferOnlyStep g upd protein := by
  unfold engineStep transferOnlyStep currentClustersOf
  by_cases hc : (upd.filter (fun c => protein ∈ c.2)).map Prod.fst = []
  · simp [hc]
  · simp only [if_neg hc]
    congr 1
    apply map_id_of_forall
    intro c hcmem
    by_cases hcur : c.1 ∈ (upd.filter (fun c => protein ∈ c.2)).map Prod.fst
    · simp only [if_pos hcur]
    · simp only [if_neg hcur]
      have hub : calculate_membership tanh protein (setAdd c.2 protein) c.1 g
          protein_go_terms get_tfidf permanence_scores alpha ≤ 1 :=
        calculate_membership_le_one _ _ _ _ _ _ _ _ _
      have hlb : -1 ≤ pyMaxOrZero
          (((upd.filter (fun c => protein ∈ c.2)).map Prod.fst).map (fun cid =>
            calculate_membership tanh protein (clusterOf upd cid) cid g
              protein_go_terms get_tfidf permanence_scores alpha)) := by
        apply neg_one_le_pyMaxOrZero
        intro y hy
        rcases List.mem_map.1 hy with ⟨cid, _, rfl⟩
        exact neg_one_le_calculate_membership _ _ _ _ _ _ _ _ _
      rw [if_neg (not_lt.2 (by linarith))]

/-- C3: the reassignment engine at any overlap threshold of at least 2
(in particular the unreachable 2.1) coincides with the transfer-only engine
on every input. -/
theorem C3_overlap_tau_unreachable (tanh : ℚ → ℚ) (clusters : Clusters)
    (g : Graph) (protein_go_terms : GOMap) (get_tfidf : Int → String → ℚ)
    (permanence_scores : PermTable) (alpha overlap_tau transfer_tau : ℚ)
    (h2 : 2 ≤ overlap_tau) :
    apply_overlap_reassignment tanh clusters g protein_go_terms get_tfidf
      permanence_scores alpha overlap_tau transfer_tau
    = transferOnlyEngine clusters g := by
  unfold apply_overlap_reassignment transferOnlyEngine
  exact foldl_congr_fun _ _
    (fun upd p => engineStep_eq_transferOnly tanh g protein_go_terms
      get_tfidf permanence_scores alpha overlap_tau h2 upd p) _ _

/-- C3 witness: the engine run with `overlap_tau = 2.1` on a concrete input
is exactly the transfer-only run. -/
theorem C3_overlap_tau_unreachable_witness :
    apply_overlap_reassignment (fun _ => 0)
      [(0, ["p", "a"]), (1, ["b", "c"])] G2 [] (fun _ _ => 0) [] 1 (21/10) 0
    = transferOnlyEngine [(0, ["p", "a"]), (1, ["b", "c"])] G2 :=
  C3_overlap_tau_unreachable (fun _ => 0) [(0, ["p", "a"]), (1, ["b", "c"])]
    G2 [] (fun _ _ => 0) [] 1 (21/10) 0 (by norm_num)

/-- C3 counterexample: with `overlap_tau = 2.1` the engine is not a no-op;
on this input no overlap fires, yet the transfer loop still moves protein
`p` out of its cluster, so the output differs from the initial partition. -/
theorem C3_not_noop_counterexample :
    apply_overlap_reassignment (fun _ => 0)
      [(0, ["p", "a"]), (1, ["b", "c"])]
      { nodes := ["p", "a", "b", "c"],
        adj := fun u v =>
          (u = "p" && (v = "b" || v = "c")) || (v = "p" && (u = "b" || u = "c")) ||
          (u = "b" && v = "c") || (u = "c" && v = "b"),
        edgeCount := 3 }
      [] (fun _ _ => 0) [] 1 (21/10) 0
      = [(0, ["a"]), (1, ["b", "c", "p"])]
    ∧ ¬ ([(0, ["a"]), (1, ["b", "c", "p"])] : Clusters)
        = [(0, ["p", "a"]), (1, ["b", "c"])] := by
  constructor
  · decide
  · decide

/-- C5: `transfer_tau` is dead: the reassignment engine gives identical
output for any two values of it, and `compute_fitness` gives identical
fitness for two solution vectors differing only in their third component. -/
theorem C5_transfer_tau_noninterference :
    (∀ (tanh : ℚ → ℚ) (clusters : Clusters) (g : Graph)
      (protein_go_terms : GOMap) (get_tfidf : Int → String → ℚ)
      (permanence_scores : PermTable) (alpha overlap_tau t1 t2 : ℚ),
      apply_overlap_reassignment tanh clusters g protein_go_terms get_tfidf
        permanence_scores alpha overlap_tau t1
      = apply_overlap_reassignment tanh clusters g protein_go_terms get_tfidf
          permanence_scores alpha overlap_tau t2)
    ∧ (∀ (tanh : ℚ → ℚ) (g : Graph) (initial_clusters : Clusters)
      (protein_go_terms : GOMap) (get_tfidf : Int → String → ℚ)
      (permanence_scores : PermTable) (a o t1 t2 lambda_inter lambda_fragment : ℚ),
      compute_fitness tanh g initial_clusters protein_go_terms get_tfidf
        permanence_scores (a, o, t1) lambda_inter lambda_fragment
      = compute_fitness tanh g initial_clusters protein_go_terms get_tfidf
          permanence_scores (a, o, t2) lambda_inter lambda_fragment) := by
  constructor
  · intros; rfl
  · intros; rfl

/-- C4 amended: the engine processes the proteins sequentially and, for each
protein, runs its overlap step and then immediately its transfer loop over
the clusters that contained the protein at the start of its turn. -/
theorem C4_engine_interleaves_per_protein (tanh : ℚ → ℚ)
    (clusters : Clusters) (g : Graph) (protein_go_terms : GOMap)
    (get_tfidf : Int → String → ℚ) (permanence_scores : PermTable)
    (alpha overlap_tau transfer_tau : ℚ) :
    apply_overlap_reassignment tanh clusters g protein_go_terms get_tfidf
      permanence_scores alpha overlap_tau transfer_tau
    = (allProteins clusters).foldl (fun upd p =>
        (currentClustersOf upd p).foldl (transferInner g p)
          (overlapPartStep tanh g protein_go_terms get_tfidf
            permanence_scores alpha overlap_tau upd p)) clusters := by
  unfold apply_overlap_reassignment
  apply foldl_congr_fun
  intro upd p
  unfold engineStep overlapPartStep currentClustersOf
  by_cases hc : (upd.filter (fun c => p ∈ c.2)).map Prod.fst = []
  · simp [hc]
  · simp only [if_neg hc]

/-- C4 counterexample: the engine differs from the two-pass reference on a
concrete input; processed interleaved, protein `p1` is transferred out of
cluster 0 before protein `p2` overlap-joins it, while in the two-pass
reference the early overlap addition of `p2` blocks that transfer. -/
theorem C4_two_pass_counterexample :
    apply_overlap_reassignment (fun _ => 0) CS4 G4 [] (fun _ _ => 0) PT4
      1 (1/2) 0
      = [(0, ["a", "p2"]), (1, ["p2", "p1"]), (2, ["x", "y"])]
    ∧ twoPassReference (fun _ => 0) CS4 G4 [] (fun _ _ => 0) PT4 1 (1/2) 0
      = [(0, ["p1", "a", "p2"]), (1, ["p2"]), (2, ["x", "y"])]
    ∧ ¬ apply_overlap_reassignment (fun _ => 0) CS4 G4 [] (fun _ _ => 0) PT4
        1 (1/2) 0
      = twoPassReference (fun _ => 0) CS4 G4 [] (fun _ _ => 0) PT4 1 (1/2) 0 := by
  refine ⟨by decide, by decide, by decide⟩

lemma assocFind_cons {α β : Type} [DecidableEq α] (c : α × β)
    (l : List (α × β)) (a : α) :
    assocFind (c :: l) a = if c.1 = a then some c.2 else assocFind l a := rfl

lemma clusterOf_cons (c : Int × List String) (cs : Clusters) (cid : Int) :
    clusterOf (c :: cs) cid = if c.1 = cid then c.2 else clusterOf cs cid := by
  unfold clusterOf
  rw [assocFind_cons]
  by_cases h : c.1 = cid <;> simp [h]

lemma mem_setAdd_of_mem {l : List String} {q : String} (p : String)
    (h : q ∈ l) : q ∈ setAdd l p := by
  unfold setAdd
  by_cases hp : p ∈ l <;> simp [hp, h]

lemma keys_map_of_fst_eq (f : Int × List String → Int × List String)
    (hf : ∀ c, (f c).1 = c.1) (l : Clusters) :
    (l.map f).map Prod.fst = l.map Prod.fst := by
  induction l with
  | nil => rfl
  | cons c cs ih => simp only [List.map_cons, hf, ih]

lemma keys_transferInner (g : Graph) (p : String) (upd : Clusters)
    (cid : Int) :
    (transferInner g p upd cid).map Prod.fst = upd.map Prod.fst := by
  unfold transferInner
  dsimp only
  repeat' split
  all_goals try rfl
  have h1 := keys_map_of_fst_eq
    (fun c => if c.1 = cid then (c.1, c.2.filter (fun q => q ≠ p)) else c)
    (by intro c; by_cases h : c.1 = cid <;> simp [h]) upd
  have h2 := keys_map_of_fst_eq
    (fun c => if c.1 = find_emax_cluster p upd g then (c.1, setAdd c.2 p) else c)
    (by intro c; by_cases h : c.1 = find_emax_cluster p upd g <;> simp [h])
    (upd.map (fun c =>
      if c.1 = cid then (c.1, c.2.filter (fun q => q ≠ p)) else c))
  rw [h2, h1]

lemma keys_foldl_transferInner (g : Graph) (p : String) :
    ∀ (l : List Int) (u : Clusters),
      (l.foldl (transferInner g p) u).map Prod.fst = u.map Prod.fst := by
  intro l
  induction l with
  | nil => intro u; rfl
  | cons a as ih =>
    intro u
    rw [List.foldl_cons, ih, keys_transferInner]

lemma keys_engineStep (tanh : ℚ → ℚ) (g : Graph)
    (protein_go_terms : GOMap) (get_tfidf : Int → String → ℚ)
    (permanence_scores : PermTable) (alpha overlap_tau : ℚ)
    (upd : Clusters) (p : String) :
    (engineStep tanh g protein_go_terms get_tfidf permanence_scores alpha
      overlap_tau upd p).map Prod.fst = upd.map Prod.fst := by
  unfold engineStep
  by_cases hc : (upd.filter (fun c => p ∈ c.2)).map Prod.fst = []
  · simp [hc]
  · simp only [if_neg hc]
    rw [keys_foldl_transferInner, keys_map_of_fst_eq]
    intro c
    by_cases h1 : c.1 ∈ (upd.filter (fun c => p ∈ c.2)).map Prod.fst
    · rw [if_pos h1]
    · rw [if_neg h1]
      split <;> rfl

lemma clusterOf_map_monotone (f : Int × List String → Int × List String)
    (hfst : ∀ c, (f c).1 = c.1)
    (hmem : ∀ c, ∀ q ∈ c.2, q ∈ (f c).2) :
    ∀ (l : Clusters) (cid : Int) (q : String),
      q ∈ clusterOf l cid → q ∈ clusterOf (l.map f) cid := by
  intro l
  induction l with
  | nil => intro cid q h; simpa [clusterOf, assocFind] using h
  | cons c cs ih =>
    intro cid q h
    rw [clusterOf_cons] at h
    rw [List.map_cons, clusterOf_cons, hfst]
    by_cases hk : c.1 = cid
    · rw [if_pos hk]
      rw [if_pos hk] at h
      exact hmem c q h
    · rw [if_neg hk]
      rw [if_neg hk] at h
      exact ih cid q h

/-- C1: the engine never creates or destroys cluster ids (the key list of
the output partition is exactly that of the input), and the overlap portion
of a protein step never removes a membership from any cluster. -/
theorem C1_partition_conservation :
    (∀ (tanh : ℚ → ℚ) (clusters : Clusters) (g : Graph)
      (protein_go_terms : GOMap) (get_tfidf : Int → String → ℚ)
      (permanence_scores : PermTable) (alpha overlap_tau transfer_tau : ℚ),
      (apply_overlap_reassignment tanh clusters g protein_go_terms get_tfidf
        permanence_scores alpha overlap_tau transfer_tau).map Prod.fst
      = clusters.map Prod.fst)
    ∧ (∀ (tanh : ℚ → ℚ) (g : Graph) (protein_go_terms : GOMap)
      (get_tfidf : Int → String → ℚ) (permanence_scores : PermTable)
      (alpha overlap_tau : ℚ) (upd : Clusters) (p : String) (cid : Int)
      (q : String),
      q ∈ clusterOf upd cid →
      q ∈ clusterOf (overlapPartStep tanh g protein_go_terms get_tfidf
        permanence_scores alpha overlap_tau upd p) cid) := by
  constructor
  · intro tanh clusters g protein_go_terms get_tfidf permanence_scores
      alpha overlap_tau transfer_tau
    unfold apply_overlap_reassignment
    have h : ∀ (l : List String) (init : Clusters),
        (l.foldl (engineStep tanh g protein_go_terms get_tfidf
          permanence_scores alpha overlap_tau) init).map Prod.fst
        = init.map Prod.fst := by
      intro l
      induction l with
      | nil => intro init; rfl
      | cons a as ih =>
        intro init
        rw [List.foldl_cons, ih, keys_engineStep]
    exact h _ _
  · intro tanh g protein_go_terms get_tfidf permanence_scores alpha
      overlap_tau upd p cid q hq
    unfold overlapPartStep
    by_cases hc : currentClustersOf upd p = []
    · simpa [hc] using hq
    · simp only [if_neg hc]
      refine clusterOf_map_monotone _ ?_ ?_ upd cid q hq
      · intro c
        by_cases h1 : c.1 ∈ currentClustersOf upd p <;>
          simp only [h1, if_true, if_false] <;> split <;> rfl
      · intro c r hr
        by_cases h1 : c.1 ∈ currentClustersOf upd p
        · simpa [h1] using hr
        · simp only [h1, if_false]
          split

          · exact mem_setAdd_of_mem p hr
          · exact hr

/-- C1 witness: concrete instances of both conjuncts, the key list of the
engine output and a preserved membership through an overlap step that does
add the protein `p2` to cluster 0. -/
theorem C1_partition_conservation_witness :
    (apply_overlap_reassignment (fun _ => 0) CS4 G4 [] (fun _ _ => 0) PT4
      1 (1/2) 0).map Prod.fst = CS4.map Prod.fst
    ∧ "a" ∈ clusterOf (overlapPartStep (fun _ => 0) G4 [] (fun _ _ => 0)
        PT4 1 (1/2) CS4 "p2") 0 :=
  ⟨C1_partition_conservation.1 (fun _ => 0) CS4 G4 [] (fun _ _ => 0) PT4
      1 (1/2) 0,
   C1_partition_conservation.2 (fun _ => 0) G4 [] (fun _ _ => 0) PT4
      1 (1/2) CS4 "p2" 0 "a" (by decide)⟩

lemma emax_fold_eq (N cluster : List String) :
    ∀ (cs : Clusters) (acc : Nat),
      cs.foldl (fun acc c =>
        if listSetEq c.2 cluster then acc
        else
          let connections := (N.filter (fun q => q ∈ c.2)).length
          if connections > acc then connections else acc) acc
      = (cs.filter (fun c => !listSetEq c.2 cluster)).foldl
          (fun a c => max a ((N.filter (fun q => q ∈ c.2)).length)) acc := by
  intro cs
  induction cs with
  | nil => intro acc; rfl
  | cons c rest ih =>
    intro acc
    by_cases h : listSetEq c.2 cluster
    · simp only [List.foldl_cons, List.filter_cons, h, if_pos, Bool.not_true,
        Bool.false_eq_true, if_false]
      exact ih acc
    · have hb : listSetEq c.2 cluster = false := by
        revert h; cases listSetEq c.2 cluster <;> simp
      simp only [List.foldl_cons, List.filter_cons, hb, Bool.not_false,
        if_true, if_false, Bool.false_eq_true]
      have hmax : (if ((N.filter (fun q => q ∈ c.2)).length > acc)
          then (N.filter (fun q => q ∈ c.2)).length else acc)
          = max acc ((N.filter (fun q => q ∈ c.2)).length) := by
        rcases le_or_lt ((N.filter (fun q => q ∈ c.2)).length) acc with h1 | h1
        · rw [if_neg (not_lt.2 h1), Nat.max_eq_left h1]
        · rw [if_pos h1, Nat.max_eq_right h1.le]
      rw [hmax]
      exact ih _

/-- C2 amended: the permanence score is always within `[-1, 1]`; a protein
absent from the graph or without neighbors scores 0; a protein with
neighbors all inside the cluster scores exactly 1; and whenever the protein
has at least one neighbor outside the cluster the score is exactly the
clipped formula value of the claim. -/
theorem C2_permanence_characterisation :
    (∀ (protein : String) (cluster : List String) (g : Graph)
      (o : Option Clusters),
      -1 ≤ calculate_permanence protein cluster g o
      ∧ calculate_permanence protein cluster g o ≤ 1)
    ∧ (∀ (protein : String) (cluster : List String) (g : Graph)
      (o : Option Clusters),
      (protein ∉ g.nodes ∨ Graph.neighbors g protein = []) →
      calculate_permanence protein cluster g o = 0)
    ∧ (∀ (protein : String) (cluster : List String) (g : Graph)
      (o : Option Clusters),
      protein ∈ g.nodes → Graph.neighbors g protein ≠ [] →
      (Graph.neighbors g protein).filter (fun q => q ∉ cluster) = [] →
      calculate_permanence protein cluster g o = 1)
    ∧ (∀ (protein : String) (cluster : List String) (g : Graph)
      (cs : Clusters),
      protein ∈ g.nodes →
      (Graph.neighbors g protein).filter (fun q => q ∉ cluster) ≠ [] →
      calculate_permanence protein cluster g (some cs)
      = spec_permanence_formula protein cluster g cs) := by
  refine ⟨?_, ?_, ?_, ?_⟩
  · intro protein cluster g o
    unfold calculate_permanence
    by_cases hp : protein ∈ g.nodes
    · rw [if_pos hp]
      dsimp only
      by_cases hN : Graph.neighbors g protein = []
      · rw [if_pos hN]
        norm_num
      · rw [if_neg hN]
        by_cases hext : (Graph.neighbors g protein).filter
            (fun q => q ∉ cluster) = []
        · rw [if_pos hext]
          by_cases hI : 0 < ((Graph.neighbors g protein).filter
              (fun q => q ∈ cluster)).length
          · rw [if_pos hI]
            norm_num
          · rw [if_neg hI]
            norm_num
        · rw [if_neg hext]
          exact ⟨le_max_left _ _, max_le (by norm_num) (min_le_left _ _)⟩
    · rw [if_neg hp]
      norm_num
  · intro protein cluster g o h
    unfold calculate_permanence
    rcases h with h | h
    · rw [if_neg h]
    · by_cases hp : protein ∈ g.nodes
      · rw [if_pos hp]
        dsimp only
        rw [if_pos h]
      · rw [if_neg hp]
  · intro protein cluster g o hp hN hext
    unfold calculate_permanence
    rw [if_pos hp]
    dsimp only
    rw [if_neg hN, if_pos hext]
    have hI : 0 < ((Graph.neighbors g protein).filter
        (fun q => q ∈ cluster)).length := by
      cases hns : Graph.neighbors g protein with
      | nil => exact absurd hns hN
      | cons a as =>
        have ha : a ∈ cluster := by
          by_contra hac
          have hmem : a ∈ (Graph.neighbors g protein).filter
              (fun q => q ∉ cluster) := by
            rw [hns]
            simp [hac]
          rw [hext] at hmem
          exact absurd hmem (List.not_mem_nil a)
        simp [List.filter_cons, ha]
    rw [if_pos hI]
  · intro protein cluster g cs hp hext
    unfold calculate_permanence spec_permanence_formula
    rw [if_pos hp]
    have hN : Graph.neighbors g protein ≠ [] := by
      intro h
      apply hext
      rw [h]
      rfl
    dsimp only
    rw [if_neg hN, if_neg hext, emax_fold_eq]
    by_cases hE0 : ((cs.filter (fun c => !listSetEq c.2 cluster)).foldl
        (fun a c => max a (((Graph.neighbors g protein).filter
          (fun q => q ∈ c.2)).length)) 0) = 0
    · rw [if_pos hE0, if_neg (by omega : ¬ 0 < (cs.filter
        (fun c => !listSetEq c.2 cluster)).foldl
        (fun a c => max a (((Graph.neighbors g protein).filter
          (fun q => q ∈ c.2)).length)) 0)]
      have hlen : (max 1 (Graph.neighbors g protein).length)
          = (Graph.neighbors g protein).length := by
        have : 0 < (Graph.neighbors g protein).length :=
          List.length_pos.2 hN
        omega
      rw [hlen]
    · rw [if_neg hE0, if_pos (Nat.pos_of_ne_zero hE0)]

/-- C2 witness: the formula case at a protein with one external neighbor and
the zero case at an isolated node. -/
theorem C2_permanence_characterisation_witness :
    calculate_permanence "p" ["a", "p"] G2 (some CS2)
      = spec_permanence_formula "p" ["a", "p"] G2 CS2
    ∧ calculate_permanence "x" ["x"] G2 (some CS2) = 0 :=
  ⟨C2_permanence_characterisation.2.2.2 "p" ["a", "p"] G2 CS2 (by decide)
      (by decide),
   C2_permanence_characterisation.2.1 "x" ["x"] G2 (some CS2)
      (Or.inr (by decide))⟩

/-- C2 counterexample: the claim formula `clip(raw, -1, 1)` does not hold
universally: for a protein whose neighbors all lie inside its cluster the
source returns 1.0 directly, while the claimed formula yields 0 here
(`E_max = 0`, `raw = I/|N| - (1 - C_in) = 0`). -/
theorem C2_formula_counterexample :
    calculate_permanence "p" ["a", "p", "b"] G2 (some CS2) = 1
    ∧ spec_permanence_formula "p" ["a", "p", "b"] G2 CS2 = 0
    ∧ ¬ calculate_permanence "p" ["a", "p", "b"] G2 (some CS2)
        = spec_permanence_formula "p" ["a", "p", "b"] G2 CS2 := by
  refine ⟨by decide, by decide, by decide⟩

lemma assocFind_map_self {β : Type} (f : String → β) :
    ∀ (l : List String) (p : String),
      assocFind (l.map (fun q => (q, f q))) p
      = if p ∈ l then some (f p) else none := by
  intro l
  induction l with
  | nil => intro p; simp [assocFind]
  | cons a as ih =>
    intro p
    rw [List.map_cons, assocFind_cons]
    by_cases h : a = p
    · subst h
      simp
    · rw [if_neg h, ih]
      by_cases hm : p ∈ as
      · rw [if_pos hm, if_pos (List.mem_cons_of_mem a hm)]
      · rw [if_neg hm, if_neg ?_]
        intro hc
        rcases List.mem_cons.1 hc with h1 | h1
        · exact h h1.symm
        · exact hm h1

lemma assocFind_map_keyfun_none {β : Type} (f : Int × List String → β) :
    ∀ (l : Clusters) (cid : Int), (∀ c ∈ l, ¬ c.1 = cid) →
      assocFind (l.map (fun c => (c.1, f c))) cid = none := by
  intro l
  induction l with
  | nil => intro cid _; rfl
  | cons c cs ih =>
    intro cid hno
    rw [List.map_cons, assocFind_cons]
    rw [if_neg (hno c (by simp))]
    exact ih cid (fun d hd => hno d (by simp [hd]))

lemma assocFind_of_nodup_mem {α β : Type} [DecidableEq α] :
    ∀ (l : List (α × β)), (l.map Prod.fst).Nodup →
      ∀ (k : α) (v : β), (k, v) ∈ l → assocFind l k = some v := by
  intro l
  induction l with
  | nil => intro _ k v hv; cases hv
  | cons c cs ih =>
    intro hnd k v hv
    rw [List.map_cons] at hnd
    have hnd' := List.nodup_cons.1 hnd
    rw [assocFind_cons]
    rcases List.mem_cons.1 hv with h1 | h1
    · rw [← h1]
      rw [if_pos rfl]
    · by_cases hk : c.1 = k
      · exfalso
        have hmem : k ∈ cs.map Prod.fst := List.mem_map.2 ⟨(k, v), h1, rfl⟩
        exact hnd'.1 (hk ▸ hmem)
      · rw [if_neg hk]
        exact ih hnd'.2 k v h1

/-- The permanence table built from a partition with distinct cluster ids
holds no entry for a pair whose protein is outside the cluster, so the
default 0.0 is returned. -/
lemma permLookup_foreign_zero (clusters : Clusters) (g : Graph) (p : String)
    (cid : Int) (hnd : (clusters.map Prod.fst).Nodup)
    (hnot : p ∉ clusterOf clusters cid) :
    permLookup (calculate_permanence_all_proteins clusters g) p cid = 0 := by
  unfold permLookup calculate_permanence_all_proteins
  rw [assocFind_map_self (fun protein =>
    (clusters.filter (fun c => protein ∈ c.2)).map (fun c =>
      (c.1, calculate_permanence protein (clusterOf clusters c.1) g
        (some clusters)))) (allProteins clusters) p]
  by_cases hmem : p ∈ allProteins clusters
  · rw [if_pos hmem]
    dsimp only
    have hnone := assocFind_map_keyfun_none (fun c =>
      calculate_permanence p (clusterOf clusters c.1) g (some clusters))
      (clusters.filter (fun c => p ∈ c.2)) cid ?_
    · rw [hnone]
    · intro c hc hceq
      have hcm := List.mem_filter.1 hc
      have hpc : p ∈ c.2 := by simpa using hcm.2
      have hfind : assocFind clusters c.1 = some c.2 :=
        assocFind_of_nodup_mem clusters hnd c.1 c.2 (by simpa using hcm.1)
      apply hnot
      unfold clusterOf
      rw [← hceq, hfind]
      exact hpc
  · rw [if_neg hmem]

/-- C10: the permanence table is populated only where the protein belongs to
the cluster in the initial partition (else lookup yields the 0.0 default),
and consequently the candidate membership for a cluster the protein did not
originally belong to is exactly the clipped pure-functional term. -/
theorem C10_foreign_cluster_membership :
    (∀ (clusters : Clusters) (g : Graph) (p : String) (cid : Int),
      (clusters.map Prod.fst).Nodup → p ∉ clusterOf clusters cid →
      permLookup (calculate_permanence_all_proteins clusters g) p cid = 0)
    ∧ (∀ (tanh : ℚ → ℚ) (clusters : Clusters) (g : Graph)
      (protein_go_terms : GOMap) (get_tfidf : Int → String → ℚ)
      (p : String) (cid : Int) (cl : List String) (alpha : ℚ),
      (clusters.map Prod.fst).Nodup → p ∉ clusterOf clusters cid →
      0 ≤ alpha → alpha ≤ 1 →
      calculate_membership tanh p cl cid g protein_go_terms get_tfidf
        (calculate_permanence_all_proteins clusters g) alpha
      = max (-1) (min 1 ((1 - alpha) *
          calculate_functional_dependency tanh p cl protein_go_terms
            get_tfidf cid true))) := by
  constructor
  · exact permLookup_foreign_zero
  · intro tanh clusters g protein_go_terms get_tfidf p cid cl alpha hnd
      hnot h0 h1
    unfold calculate_membership
    dsimp only
    rw [permLookup_foreign_zero clusters g p cid hnd hnot,
      min_eq_right h1, max_eq_right h0]
    have harith : alpha * 0 + (1 - alpha) *
        calculate_functional_dependency tanh p cl protein_go_terms
          get_tfidf cid true
        = (1 - alpha) * calculate_functional_dependency tanh p cl
            protein_go_terms get_tfidf cid true := by
      ring
    rw [harith]

/-- C10 witness: protein `b` never belonged to cluster 0 of this partition,
its table lookup there is 0 and its membership reduces to the clipped
functional term. -/
theorem C10_foreign_cluster_membership_witness :
    permLookup (calculate_permanence_all_proteins
      [(0, ["a"]), (1, ["b"])] G2) "b" 0 = 0
    ∧ calculate_membership (fun q => q) "b" ["a", "b"] 0 G2
        [("b", ["t1"])] (fun _ _ => 1)
        (calculate_permanence_all_proteins [(0, ["a"]), (1, ["b"])] G2) (1/2)
      = max (-1) (min 1 ((1 - 1/2) *
          calculate_functional_dependency (fun q => q) "b" ["a", "b"]
            [("b", ["t1"])] (fun _ _ => 1) 0 true)) :=
  ⟨C10_foreign_cluster_membership.1 [(0, ["a"]), (1, ["b"])] G2 "b" 0
      (by decide) (by decide),
   C10_foreign_cluster_membership.2 (fun q => q) [(0, ["a"]), (1, ["b"])]
      G2 [("b", ["t1"])] (fun _ _ => 1) "b" 0 ["a", "b"] (1/2)
      (by decide) (by decide) (by norm_num) (by norm_num)⟩

lemma scoreClusterStep_empty (tanh : ℚ → ℚ) (g : Graph)
    (protein_go_terms : GOMap) (get_tfidf : Int → String → ℚ)
    (permanence_scores : PermTable) (alpha : ℚ) (acc : FitAcc)
    (c : Int × List String) (hc : c.2.length = 0) :
    scoreClusterStep tanh g protein_go_terms get_tfidf permanence_scores
      alpha acc c = Except.ok acc := by
  unfold scoreClusterStep
  rw [if_pos hc]
  rfl

lemma foldlM_scoreClusterStep_empty (tanh : ℚ → ℚ) (g : Graph)
    (protein_go_terms : GOMap) (get_tfidf : Int → String → ℚ)
    (permanence_scores : PermTable) (alpha : ℚ) :
    ∀ (oc : Clusters), (∀ c ∈ oc, c.2.length = 0) → ∀ (acc : FitAcc),
      oc.foldlM (scoreClusterStep tanh g protein_go_terms get_tfidf
        permanence_scores alpha) acc = Except.ok acc := by
  intro oc
  induction oc with
  | nil => intro _ acc; rfl
  | cons c cs ih =>
    intro hall acc
    rw [List.foldlM_cons,
      scoreClusterStep_empty tanh g protein_go_terms get_tfidf
        permanence_scores alpha acc c (hall c (by simp))]
    exact ih (fun d hd => hall d (by simp [hd])) acc

/-- C6 amended: a failure of the reassignment call is caught by the
try/except block and reported as the fixed `-1e6` penalty, and a resulting
partition with zero total proteins is likewise scored `-1e6`; exceptions of
the scoring loop itself are not caught (see the counterexample). -/
theorem C6_penalty_containment :
    (∀ (tanh : ℚ → ℚ) (g : Graph) (protein_go_terms : GOMap)
      (get_tfidf : Int → String → ℚ) (permanence_scores : PermTable)
      (alpha lambda_inter lambda_fragment : ℚ) (e : String),
      compute_fitness_from tanh g protein_go_terms get_tfidf
        permanence_scores alpha lambda_inter lambda_fragment
        (Except.error e) = Except.ok (-1000000))
    ∧ (∀ (tanh : ℚ → ℚ) (g : Graph) (protein_go_terms : GOMap)
      (get_tfidf : Int → String → ℚ) (permanence_scores : PermTable)
      (alpha lambda_inter lambda_fragment : ℚ) (oc : Clusters),
      (oc.map (fun c => c.2.length)).sum = 0 →
      compute_fitness_from tanh g protein_go_terms get_tfidf
        permanence_scores alpha lambda_inter lambda_fragment
        (Except.ok oc) = Except.ok (-1000000)) := by
  constructor
  · intros
    rfl
  · intro tanh g protein_go_terms get_tfidf permanence_scores alpha
      lambda_inter lambda_fragment oc hsum
    have hall : ∀ c ∈ oc, c.2.length = 0 := by
      intro c hc
      exact List.sum_eq_zero_iff.1 hsum c.2.length
        (List.mem_map.2 ⟨c, hc, rfl⟩)
    unfold compute_fitness_from scoreClusters
    dsimp only
    rw [foldlM_scoreClusterStep_empty tanh g protein_go_terms get_tfidf
      permanence_scores alpha oc hall ⟨0, 0, 0, 0⟩]
    simp [hsum]

/-- C6 witness: the error branch of the try block at a concrete input and
the zero-protein penalty at a partition of two empty clusters. -/
theorem C6_penalty_containment_witness :
    compute_fitness_from (fun _ => 0) G6 [] (fun _ _ => 0) [] 0 1 (1/2)
      (Except.error "anything") = Except.ok (-1000000)
    ∧ compute_fitness_from (fun _ => 0) G6 [] (fun _ _ => 0) [] 0 1 (1/2)
        (Except.ok [(0, []), (1, [])]) = Except.ok (-1000000) :=
  ⟨C6_penalty_containment.1 (fun _ => 0) G6 [] (fun _ _ => 0) [] 0 1 (1/2)
      "anything",
   C6_penalty_containment.2 (fun _ => 0) G6 [] (fun _ _ => 0) [] 0 1 (1/2)
      [(0, []), (1, [])] (by decide)⟩

/-- C6 counterexample: an exception raised inside the scoring loop is not
caught.  The initial partition mentions a protein absent from the graph:
the reassignment succeeds (its own neighbor accesses are guarded), but the
unguarded `graph.neighbors` call in the inter-coupling loop raises, and
`compute_fitness` propagates the error instead of returning the penalty. -/
theorem C6_scoring_exception_counterexample :
    compute_fitness (fun _ => 0) G6 [(0, ["q"])] [] (fun _ _ => 0) []
      (0, 0, 0) 1 (1/2)
    = Except.error "NetworkXError: node not in graph"
    ∧ ¬ compute_fitness (fun _ => 0) G6 [(0, ["q"])] [] (fun _ _ => 0) []
        (0, 0, 0) 1 (1/2) = Except.ok (-1000000) := by
  refine ⟨by decide, by decide⟩

lemma updAux_evals_le (P : LEAParams) (levy : Nat → List ℚ) :
    ∀ (n i : Nat) (st : LEAState), (st.evals : Int) ≤ P.maxEvals →
      ((updatePositionsAux P levy n i st).evals : Int) ≤ P.maxEvals := by
  intro n
  induction n with
  | zero => intro i st h; exact h
  | succ n ih =>
    intro i st h
    unfold updatePositionsAux
    by_cases hge : (st.evals : Int) ≥ P.maxEvals
    · rw [if_pos hge]
      exact h
    · rw [if_neg hge]
      cases hg : st.population.get? i with
      | none =>
        exact h
      | some pos =>
        dsimp only
        apply ih
        dsimp only
        push_cast
        omega

lemma updAux_evals_ge (P : LEAParams) (levy : Nat → List ℚ) :
    ∀ (n i : Nat) (st : LEAState),
      (st.evals : Int) ≤ ((updatePositionsAux P levy n i st).evals : Int) := by
  intro n
  induction n with
  | zero => intro i st; exact le_refl _
  | succ n ih =>
    intro i st
    unfold updatePositionsAux
    by_cases hge : (st.evals : Int) ≥ P.maxEvals
    · rw [if_pos hge]
    · rw [if_neg hge]
      cases hg : st.population.get? i with
      | none =>
        exact le_refl _
      | some pos =>
        dsimp only
        refine le_trans ?_ (ih (i + 1) _)
        dsimp only
        push_cast
        omega

lemma updAux_length (P : LEAParams) (levy : Nat → List ℚ) :
    ∀ (n i : Nat) (st : LEAState),
      (updatePositionsAux P levy n i st).population.length
      = st.population.length := by
  intro n
  induction n with
  | zero => intro i st; rfl
  | succ n ih =>
    intro i st
    unfold updatePositionsAux
    by_cases hge : (st.evals : Int) ≥ P.maxEvals
    · rw [if_pos hge]
    · rw [if_neg hge]
      cases hg : st.population.get? i with
      | none =>
        rfl
      | some pos =>
        dsimp only
        rw [ih]
        dsimp only
        rw [List.length_set]

lemma evalAux_evals_le (P : LEAParams) (f : List ℚ → ℚ) :
    ∀ (n i : Nat) (st : LEAState), (st.evals : Int) ≤ P.maxEvals →
      ((evaluateFitnessAux P f n i st).evals : Int) ≤ P.maxEvals := by
  intro n
  induction n with
  | zero => intro i st h; exact h
  | succ n ih =>
    intro i st h
    unfold evaluateFitnessAux
    by_cases hge : (st.evals : Int) ≥ P.maxEvals
    · rw [if_pos hge]
      exact h
    · rw [if_neg hge]
      cases hg : st.population.get? i with
      | none =>
        exact h
      | some pos =>
        dsimp only
        split
        · apply ih
          dsimp only
          push_cast
          omega
        · apply ih
          dsimp only
          push_cast
          omega

lemma evalAux_evals_ge (P : LEAParams) (f : List ℚ → ℚ) :
    ∀ (n i : Nat) (st : LEAState),
      (st.evals : Int) ≤ ((evaluateFitnessAux P f n i st).evals : Int) := by
  intro n
  induction n with
  | zero => intro i st; exact le_refl _
  | succ n ih =>
    intro i st
    unfold evaluateFitnessAux
    by_cases hge : (st.evals : Int) ≥ P.maxEvals
    · rw [if_pos hge]
    · rw [if_neg hge]
      cases hg : st.population.get? i with
      | none =>
        exact le_refl _
      | some pos =>
        dsimp only
        split
        · refine le_trans ?_ (ih (i + 1) _)
          dsimp only
          push_cast
          omega
        · refine le_trans ?_ (ih (i + 1) _)
          dsimp only
          push_cast
          omega

lemma evalAux_length (P : LEAParams) (f : List ℚ → ℚ) :
    ∀ (n i : Nat) (st : LEAState),
      (evaluateFitnessAux P f n i st).population.length
      = st.population.length := by
  intro n
  induction n with
  | zero => intro i st; rfl
  | succ n ih =>
    intro i st
    unfold evaluateFitnessAux
    by_cases hge : (st.evals : Int) ≥ P.maxEvals
    · rw [if_pos hge]
    · rw [if_neg hge]
      cases hg : st.population.get? i with
      | none =>
        rfl
      | some pos =>
        dsimp only
        split
        · rw [ih]
        · rw [ih]

lemma update_positions_progress (P : LEAParams) (levy : Nat → List ℚ)
    (st : LEAState) (hlen : 0 < st.population.length)
    (hlt : (st.evals : Int) < P.maxEvals) :
    (st.evals : Int) + 1 ≤ ((update_positions P levy st).evals : Int) := by
  unfold update_positions
  cases hp : st.population with
  | nil => rw [hp] at hlen; simp at hlen
  | cons a rest =>
    rw [List.length_cons]
    unfold updatePositionsAux
    rw [if_neg (not_le.2 hlt)]
    have hg : st.population.get? 0 = some a := by
      rw [hp]
      rfl
    rw [hg]
    dsimp only
    refine le_trans ?_ (updAux_evals_ge P levy rest.length 1 _)
    dsimp only
    push_cast
    omega

lemma evaluate_fitness_exhausted (P : LEAParams) (f : List ℚ → ℚ)
    (st : LEAState) (hlen : 0 < st.population.length)
    (hge : (st.evals : Int) ≥ P.maxEvals) :
    evaluate_fitness P f st = st := by
  unfold evaluate_fitness
  cases hp : st.population with
  | nil => rw [hp] at hlen; simp at hlen
  | cons a rest =>
    rw [List.length_cons]
    unfold evaluateFitnessAux
    rw [if_pos hge]

lemma optimizeLoop_done (P : LEAParams) (levy : Nat → List ℚ)
    (f : List ℚ → ℚ) (st : LEAState)
    (hge : ¬ (st.evals : Int) < P.maxEvals) :
    ∀ (fuel : Nat), optimizeLoop P levy f fuel st = some st := by
  intro fuel
  cases fuel with
  | zero =>
    unfold optimizeLoop
    rw [if_neg hge]
  | succ n =>
    unfold optimizeLoop
    rw [if_neg hge]

lemma optimizeLoop_terminates (P : LEAParams) (levy : Nat → List ℚ)
    (f : List ℚ → ℚ) :
    ∀ (fuel : Nat) (st : LEAState),
      0 < st.population.length →
      (st.evals : Int) ≤ P.maxEvals →
      P.maxEvals - (st.evals : Int) ≤ fuel →
      ∃ st', optimizeLoop P levy f fuel st = some st'
        ∧ (st'.evals : Int) = P.maxEvals := by
  intro fuel
  induction fuel with
  | zero =>
    intro st hlen hle hfuel
    refine ⟨st, ?_, by omega⟩
    unfold optimizeLoop
    rw [if_neg (by omega : ¬ (st.evals : Int) < P.maxEvals)]
  | succ n ih =>
    intro st hlen hle hfuel
    by_cases hlt : (st.evals : Int) < P.maxEvals
    · have hstep1 : (st.evals : Int) + 1
          ≤ ((update_positions P levy st).evals : Int) :=
        update_positions_progress P levy st hlen hlt
      have hstep2 : ((update_positions P levy st).evals : Int)
          ≤ ((evaluate_fitness P f (update_positions P levy st)).evals : Int) :=
        evalAux_evals_ge P f _ 0 _
      have hle1 : ((update_positions P levy st).evals : Int) ≤ P.maxEvals :=
        updAux_evals_le P levy _ 0 st hle
      have hle2 : ((evaluate_fitness P f (update_positions P levy st)).evals :
          Int) ≤ P.maxEvals :=
        evalAux_evals_le P f _ 0 _ hle1
      have hlen2 : 0 <
          (evaluate_fitness P f (update_positions P levy st)).population.length := by
        unfold evaluate_fitness update_positions
        rw [evalAux_length, updAux_length]
        exact hlen
      rcases ih (evaluate_fitness P f (update_positions P levy st)) hlen2
        hle2 (by omega) with ⟨st', hst', hev⟩
      refine ⟨st', ?_, hev⟩
      unfold optimizeLoop
      rw [if_pos hlt]
      exact hst'
    · refine ⟨st, ?_, by omega⟩
      unfold optimizeLoop
      rw [if_neg hlt]

lemma leaInit_ok_inversion (n : Int) (d : Nat) (lb ub : List ℚ)
    (rand : Nat → Nat → ℚ) (st0 : LEAState)
    (h : leaInit n d lb ub rand = Except.ok st0) :
    st0.evals = 0 ∧ st0.best_fitness = none
    ∧ st0.population.length = n.toNat
    ∧ ∃ rest, st0.population = st0.best_solution :: rest := by
  unfold leaInit at h
  by_cases hneg : n < 0
  · rw [if_pos hneg] at h
    exact Except.noConfusion h
  · rw [if_neg hneg] at h
    dsimp only at h
    cases hp : (List.range n.toNat).map (fun i => (List.range d).map (fun j =>
        lb.getD j 0 + (ub.getD j 0 - lb.getD j 0) * rand i j)) with
    | nil =>
      rw [hp] at h
      exact Except.noConfusion h
    | cons p0 rest =>
      rw [hp] at h
      have hst : st0 = ⟨p0 :: rest, p0, none, 0, [], []⟩ := by
        cases h
        rfl
      subst hst
      refine ⟨rfl, rfl, ?_, ⟨rest, rfl⟩⟩
      dsimp only
      have hl := congrArg List.length hp
      simpa using hl.symm

lemma updAux_fill (P : LEAParams) (levy : Nat → List ℚ) :
    ∀ (n i : Nat) (st : LEAState),
      i + n = st.population.length →
      (st.evals : Int) ≤ P.maxEvals →
      P.maxEvals ≤ (st.evals : Int) + n →
      ((updatePositionsAux P levy n i st).evals : Int) = P.maxEvals
      ∧ (updatePositionsAux P levy n i st).best_solution = st.best_solution
      ∧ (updatePositionsAux P levy n i st).best_fitness = st.best_fitness := by
  intro n
  induction n with
  | zero =>
    intro i st hi hle hge
    refine ⟨?_, rfl, rfl⟩
    show (st.evals : Int) = P.maxEvals
    omega
  | succ n ih =>
    intro i st hi hle hge
    unfold updatePositionsAux
    by_cases hb : (st.evals : Int) ≥ P.maxEvals
    · rw [if_pos hb]
      exact ⟨by omega, rfl, rfl⟩
    · rw [if_neg hb]
      cases hg : st.population.get? i with
      | none =>
        exfalso
        have hnone : st.population.length ≤ i := List.get?_eq_none.1 hg
        omega
      | some pos =>
        dsimp only
        refine ih (i + 1) _ ?_ ?_ ?_
        · dsimp only
          rw [List.length_set]
          omega
        · dsimp only
          push_cast
          omega
        · dsimp only
          push_cast
          push_cast at hge
          omega

/-- C8: one unit of the shared budget is consumed per movement step and per
fitness call, the counter never exceeds the budget across either phase, and
from any successfully constructed optimizer with positive population size
and positive budget the loop terminates with the counter exactly at
`max_evaluations`. -/
theorem C8_budget_and_termination :
    (∀ (P : LEAParams) (levy : Nat → List ℚ) (st : LEAState),
      (st.evals : Int) ≤ P.maxEvals →
      ((update_positions P levy st).evals : Int) ≤ P.maxEvals)
    ∧ (∀ (P : LEAParams) (f : List ℚ → ℚ) (st : LEAState),
      (st.evals : Int) ≤ P.maxEvals →
      ((evaluate_fitness P f st).evals : Int) ≤ P.maxEvals)
    ∧ (∀ (P : LEAParams) (levy : Nat → List ℚ) (f : List ℚ → ℚ) (n : Int)
      (d : Nat) (lb ub : List ℚ) (rand : Nat → Nat → ℚ) (st0 : LEAState),
      0 < n → 0 < P.maxEvals → leaInit n d lb ub rand = Except.ok st0 →
      ∃ st', optimize P levy f st0 = some st'
        ∧ (st'.evals : Int) = P.maxEvals) := by
  refine ⟨?_, ?_, ?_⟩
  · intro P levy st h
    exact updAux_evals_le P levy _ 0 st h
  · intro P f st h
    exact evalAux_evals_le P f _ 0 st h
  · intro P levy f n d lb ub rand st0 hn hM hok
    rcases leaInit_ok_inversion n d lb ub rand st0 hok with ⟨he, _, hlen, _⟩
    have hlenpos : 0 < st0.population.length := by
      rw [hlen]
      omega
    have hle : (st0.evals : Int) ≤ P.maxEvals := by
      rw [he]
      push_cast
      omega
    rcases optimizeLoop_terminates P levy f
      ((P.maxEvals - (st0.evals : Int)).toNat) st0 hlenpos hle
      (Int.self_le_toNat _) with ⟨st', h1, h2⟩
    exact ⟨st', h1, h2⟩

/-- C8 witness: a concrete one-individual run with budget 1 terminates with
the counter exactly at the budget. -/
theorem C8_budget_and_termination_witness :
    ∃ st', optimize ⟨1, [0], [1]⟩ (fun _ => [(0 : ℚ)]) (fun _ => 0)
        ⟨[[(0 : ℚ)]], [(0 : ℚ)], none, 0, [], []⟩ = some st'
      ∧ (st'.evals : Int) = 1 :=
  C8_budget_and_termination.2.2 ⟨1, [0], [1]⟩ (fun _ => [(0 : ℚ)])
    (fun _ => 0) 1 1 [0] [1] (fun _ _ => 0)
    ⟨[[(0 : ℚ)]], [(0 : ℚ)], none, 0, [], []⟩ (by decide) (by decide)
    (by decide)

/-- C9 amended: when the budget is positive and at most the population size,
the first movement round consumes the whole budget, the fitness function is
never consulted (the run is identical for any fitness function), and the
returned state carries the infinite initial best fitness together with the
original, pre-movement copy of the first individual as best solution. -/
theorem C9_small_budget_behavior (P : LEAParams) (levy : Nat → List ℚ)
    (f : List ℚ → ℚ) (n : Int) (d : Nat) (lb ub : List ℚ)
    (rand : Nat → Nat → ℚ) (st0 : LEAState)
    (hok : leaInit n d lb ub rand = Except.ok st0)
    (hM : 0 < P.maxEvals) (hMn : P.maxEvals ≤ n) :
    optimize P levy f st0 = some (update_positions P levy st0)
    ∧ (update_positions P levy st0).best_fitness = none
    ∧ (update_positions P levy st0).best_solution = st0.best_solution
    ∧ ((update_positions P levy st0).evals : Int) = P.maxEvals
    ∧ (∀ f2 : List ℚ → ℚ,
        optimize P levy f2 st0 = optimize P levy f st0) := by
  rcases leaInit_ok_inversion n d lb ub rand st0 hok with ⟨he, hbf, hlen, _⟩
  have hn : 0 < n := lt_of_lt_of_le hM hMn
  have hlenpos : 0 < st0.population.length := by
    rw [hlen]
    omega
  have hfill := updAux_fill P levy st0.population.length 0 st0 (by omega)
    (by rw [he]; push_cast; omega)
    (by rw [he, hlen]; push_cast; omega)
  have hup_evals : ((update_positions P levy st0).evals : Int) = P.maxEvals :=
    hfill.1
  have hup_len : (update_positions P levy st0).population.length
      = st0.population.length := by
    unfold update_positions
    rw [updAux_length]
  have key : ∀ f2 : List ℚ → ℚ,
      optimize P levy f2 st0 = some (update_positions P levy st0) := by
    intro f2
    unfold optimize
    obtain ⟨k, hk⟩ : ∃ k, (P.maxEvals - (st0.evals : Int)).toNat = k + 1 := by
      refine ⟨(P.maxEvals - (st0.evals : Int)).toNat - 1, ?_⟩
      rw [he]
      omega
    rw [hk]
    unfold optimizeLoop
    rw [if_pos (by rw [he]; push_cast; omega : (st0.evals : Int) < P.maxEvals)]
    rw [evaluate_fitness_exhausted P f2 (update_positions P levy st0)
      (by rw [hup_len]; exact hlenpos) (ge_of_eq hup_evals)]
    exact optimizeLoop_done P levy f2 _ (by omega) k
  exact ⟨key f, hfill.2.2.trans hbf, hfill.2.1, hup_evals,
    fun f2 => (key f2).trans (key f).symm⟩

/-- C9 witness: with one individual and budget 1, the run returns the moved
population but the original first individual as best solution, having spent
the budget without any fitness call. -/
theorem C9_small_budget_behavior_witness :
    optimize ⟨1, [0], [1]⟩ (fun _ => [(1 : ℚ)/10]) (fun _ => 0)
      ⟨[[(1 : ℚ)/2]], [(1 : ℚ)/2], none, 0, [], []⟩
    = some (update_positions ⟨1, [0], [1]⟩ (fun _ => [(1 : ℚ)/10])
        ⟨[[(1 : ℚ)/2]], [(1 : ℚ)/2], none, 0, [], []⟩) :=
  (C9_small_budget_behavior ⟨1, [0], [1]⟩ (fun _ => [(1 : ℚ)/10])
    (fun _ => 0) 1 1 [0] [1] (fun _ _ => 1/2)
    ⟨[[(1 : ℚ)/2]], [(1 : ℚ)/2], none, 0, [], []⟩ (by decide) (by decide)
    (by decide)).1

/-- C9 counterexample: the returned best solution is the original copy of
the first individual, not its moved value: here the first individual moves
from `[1/2]` to `[3/5]`, yet `best_solution` stays `[1/2]`. -/
theorem C9_moved_best_counterexample :
    leaInit 1 1 [0] [1] (fun _ _ => 1/2)
      = Except.ok ⟨[[(1 : ℚ)/2]], [(1 : ℚ)/2], none, 0, [], []⟩
    ∧ optimize ⟨1, [0], [1]⟩ (fun _ => [(1 : ℚ)/10]) (fun _ => 0)
        ⟨[[(1 : ℚ)/2]], [(1 : ℚ)/2], none, 0, [], []⟩
      = some ⟨[[(3 : ℚ)/5]], [(1 : ℚ)/2], none, 1, [], []⟩
    ∧ ¬ ([(1 : ℚ)/2] = [(3 : ℚ)/5]) := by
  refine ⟨by decide, by decide, by decide⟩

/-- C7 amended: the constructor performs no configuration validation of its
own.  Construction fails exactly for a non-positive population size (the
accidental `ValueError` of the negative-size sampler and the `IndexError`
of `population[0]` on an empty population); inverted bounds are accepted,
and a non-positive evaluation budget is accepted with `optimize` returning
immediately, its loop never entered. -/
theorem C7_no_configuration_validation :
    (∀ (n : Int) (d : Nat) (lb ub : List ℚ) (rand : Nat → Nat → ℚ),
      n ≤ 0 → (leaInit n d lb ub rand).isOk = false)
    ∧ (∀ (n : Int) (d : Nat) (lb ub : List ℚ) (rand : Nat → Nat → ℚ),
      0 < n → (leaInit n d lb ub rand).isOk = true)
    ∧ (∀ (P : LEAParams) (levy : Nat → List ℚ) (f : List ℚ → ℚ)
      (st : LEAState), P.maxEvals ≤ 0 → optimize P levy f st = some st) := by
  refine ⟨?_, ?_, ?_⟩
  · intro n d lb ub rand hn
    unfold leaInit
    by_cases hneg : n < 0
    · rw [if_pos hneg]
      rfl
    · rw [if_neg hneg]
      have h0 : n = 0 := le_antisymm hn (not_lt.1 hneg)
      subst h0
      rfl
  · intro n d lb ub rand hn
    unfold leaInit
    rw [if_neg (by omega : ¬ n < 0)]
    dsimp only
    cases hp : (List.range n.toNat).map (fun i => (List.range d).map (fun j =>
        lb.getD j 0 + (ub.getD j 0 - lb.getD j 0) * rand i j)) with
    | nil =>
      exfalso
      have hl := congrArg List.length hp
      simp only [List.length_map, List.length_range, List.length_nil] at hl
      omega
    | cons p0 rest =>
      rfl
  · intro P levy f st hM
    unfold optimize
    exact optimizeLoop_done P levy f st (by omega) _

/-- C7 witness: a zero population size fails at construction, a positive one
succeeds, and a zero budget makes `optimize` return its input state. -/
theorem C7_no_configuration_validation_witness :
    (leaInit 0 3 [0] [1] (fun _ _ => 0)).isOk = false
    ∧ (leaInit 2 3 [0] [1] (fun _ _ => 0)).isOk = true
    ∧ optimize ⟨0, [0], [1]⟩ (fun _ => [(0 : ℚ)]) (fun _ => 0)
        ⟨[[(0 : ℚ)]], [(0 : ℚ)], none, 0, [], []⟩
      = some ⟨[[(0 : ℚ)]], [(0 : ℚ)], none, 0, [], []⟩ :=
  ⟨C7_no_configuration_validation.1 0 3 [0] [1] (fun _ _ => 0) (by decide),
   C7_no_configuration_validation.2.1 2 3 [0] [1] (fun _ _ => 0) (by decide),
   C7_no_configuration_validation.2.2 ⟨0, [0], [1]⟩ (fun _ => [(0 : ℚ)])
     (fun _ => 0) ⟨[[(0 : ℚ)]], [(0 : ℚ)], none, 0, [], []⟩ (by decide)⟩

/-- C7 counterexample: an invalid configuration with lower bound 1 above
upper bound 0 neither fails at construction nor at `optimize`; the run
completes normally (`np.clip` with inverted bounds just returns the upper
bound). -/
theorem C7_invalid_bounds_run_counterexample :
    ((0 : ℚ) < 1)
    ∧ leaInit 1 1 [1] [0] (fun _ _ => 0)
        = Except.ok ⟨[[(1 : ℚ)]], [(1 : ℚ)], none, 0, [], []⟩
    ∧ optimize ⟨1, [1], [0]⟩ (fun _ => [(0 : ℚ)]) (fun _ => 0)
        ⟨[[(1 : ℚ)]], [(1 : ℚ)], none, 0, [], []⟩
      = some ⟨[[(0 : ℚ)]], [(1 : ℚ)], none, 1, [], []⟩ := by
  refine ⟨by norm_num, by decide, by decide⟩

end RatReducibility
